import Mathlib

/-!
# Undo/redo command manager over a toy TV model (`stack.c++`)

Shallow embedding of `src/stack.c++`.

* Objects live in a memory: `Tv` objects are addressed by a `TvPtr`
  (the `Tv*` held by the commands), command objects by a `CmdPtr`
  (the identity of a `std::shared_ptr<ICommand>`).  Two handles are the
  same handle exactly when the pointers are equal, so aliasing of command
  objects (one handle held several times by the stacks) is represented.
* `int` is `Int`: the program only copies channel numbers, it never does
  arithmetic on them.
* A member the constructor leaves unassigned (`Tv::mOn`, `Tv::mChannel`,
  `TvSwitchChannelCommand::mOldChannel`) starts with an arbitrary value,
  which the constructor of the embedding takes as an extra argument.
* `std::stack` is a `List` whose head is the top of the stack.
* A member function is a function from the state before the call to the
  state after it; a method of a command returns the updated receiver
  together with the updated `Tv` memory.
-/

namespace TvStack

/-- Address of a `Tv` object (`Tv*`). -/
abbrev TvPtr := Nat

/-- Identity of a command object owned through `std::shared_ptr<ICommand>`. -/
abbrev CmdPtr := Nat

/-! ## The model -/

/-- The class `Tv`: members `bool mOn; int mChannel;`. -/
structure Tv where
  mOn : Bool
  mChannel : Int
deriving DecidableEq

/-- The member `void switchOn() { mOn = true; }`. -/
def Tv.switchOn (t : Tv) : Tv := { t with mOn := true }

/-- The member `void switchOff() { mOn = false; }`. -/
def Tv.switchOff (t : Tv) : Tv := { t with mOn := false }

/-- The member `void switchChannel(int channel) { mChannel = channel; }`. -/
def Tv.switchChannel (t : Tv) (channel : Int) : Tv := { t with mChannel := channel }

/-- The member `bool isOn() { return mOn; }`. -/
def Tv.isOn (t : Tv) : Bool := t.mOn

/-- The member `int getChannel() { return mChannel; }`. -/
def Tv.getChannel (t : Tv) : Int := t.mChannel

/-- The `Tv` objects of the program, by address. -/
abbrev TvMem := TvPtr → Tv

/-! ## The concrete commands -/

/-- The class `TvOnCommand`: member `Tv* mTv`. -/
structure TvOnCommand where
  mTv : TvPtr
deriving DecidableEq

/-- Constructor `TvOnCommand(Tv& tv) : mTv(&tv) {}`. -/
def TvOnCommand.new (tv : TvPtr) : TvOnCommand := { mTv := tv }

/-- The method `void execute() { mTv->switchOn(); }`. -/
def TvOnCommand.execute (c : TvOnCommand) (tvs : TvMem) : TvOnCommand × TvMem :=
  (c, Function.update tvs c.mTv (tvs c.mTv).switchOn)

/-- The method `void undo() { mTv->switchOff(); }`. -/
def TvOnCommand.undo (c : TvOnCommand) (tvs : TvMem) : TvOnCommand × TvMem :=
  (c, Function.update tvs c.mTv (tvs c.mTv).switchOff)

/-- The method `void redo() { mTv->switchOn(); }`. -/
def TvOnCommand.redo (c : TvOnCommand) (tvs : TvMem) : TvOnCommand × TvMem :=
  (c, Function.update tvs c.mTv (tvs c.mTv).switchOn)

/-- The class `TvOffCommand`: member `TvOnCommand mTvOnCommand`, held by value. -/
structure TvOffCommand where
  mTvOnCommand : TvOnCommand
deriving DecidableEq

/-- Constructor `TvOffCommand(Tv& tv) : mTvOnCommand(tv) {}`. -/
def TvOffCommand.new (tv : TvPtr) : TvOffCommand := { mTvOnCommand := TvOnCommand.new tv }

/-- The method `void execute() { mTvOnCommand.undo(); }`. -/
def TvOffCommand.execute (c : TvOffCommand) (tvs : TvMem) : TvOffCommand × TvMem :=
  let r := c.mTvOnCommand.undo tvs
  ({ mTvOnCommand := r.1 }, r.2)

/-- The method `void undo() { mTvOnCommand.execute(); }`. -/
def TvOffCommand.undo (c : TvOffCommand) (tvs : TvMem) : TvOffCommand × TvMem :=
  let r := c.mTvOnCommand.execute tvs
  ({ mTvOnCommand := r.1 }, r.2)

/-- The method `void redo() { mTvOnCommand.undo(); }`. -/
def TvOffCommand.redo (c : TvOffCommand) (tvs : TvMem) : TvOffCommand × TvMem :=
  let r := c.mTvOnCommand.undo tvs
  ({ mTvOnCommand := r.1 }, r.2)

/-- The class `TvSwitchChannelCommand`: members
`Tv* mTv; int mOldChannel; int mNewChannel;`. -/
structure TvSwitchChannelCommand where
  mTv : TvPtr
  mOldChannel : Int
  mNewChannel : Int
deriving DecidableEq

/-- Constructor `TvSwitchChannelCommand(Tv* tv, int channel)`: assigns `mTv` and
`mNewChannel` only; `mOldChannel` keeps the arbitrary content `indet` of the
storage the object is built in. -/
def TvSwitchChannelCommand.new (tv : TvPtr) (channel : Int) (indet : Int) :
    TvSwitchChannelCommand :=
  { mTv := tv, mOldChannel := indet, mNewChannel := channel }

/-- The method
`void execute() { mOldChannel = mTv->getChannel(); mTv->switchChannel(mNewChannel); }`. -/
def TvSwitchChannelCommand.execute (c : TvSwitchChannelCommand) (tvs : TvMem) :
    TvSwitchChannelCommand × TvMem :=
  let c1 := { c with mOldChannel := (tvs c.mTv).getChannel }
  (c1, Function.update tvs c1.mTv ((tvs c1.mTv).switchChannel c1.mNewChannel))

/-- The method `void undo() { mTv->switchChannel(mOldChannel); }`. -/
def TvSwitchChannelCommand.undo (c : TvSwitchChannelCommand) (tvs : TvMem) :
    TvSwitchChannelCommand × TvMem :=
  (c, Function.update tvs c.mTv ((tvs c.mTv).switchChannel c.mOldChannel))

/-- The method `void redo() { mTv->switchChannel(mNewChannel); }`. -/
def TvSwitchChannelCommand.redo (c : TvSwitchChannelCommand) (tvs : TvMem) :
    TvSwitchChannelCommand × TvMem :=
  (c, Function.update tvs c.mTv ((tvs c.mTv).switchChannel c.mNewChannel))

/-! ## The command interface -/

/-- The interface `ICommand` with its three implementations: the dynamic type
of a command object together with its members. -/
inductive ICommand where
  | tvOn (c : TvOnCommand)
  | tvOff (c : TvOffCommand)
  | tvSwitchChannel (c : TvSwitchChannelCommand)
deriving DecidableEq

/-- Virtual call `execute()`. -/
def ICommand.execute : ICommand → TvMem → ICommand × TvMem
  | .tvOn c, tvs => let r := c.execute tvs; (.tvOn r.1, r.2)
  | .tvOff c, tvs => let r := c.execute tvs; (.tvOff r.1, r.2)
  | .tvSwitchChannel c, tvs => let r := c.execute tvs; (.tvSwitchChannel r.1, r.2)

/-- Virtual call `undo()`. -/
def ICommand.undo : ICommand → TvMem → ICommand × TvMem
  | .tvOn c, tvs => let r := c.undo tvs; (.tvOn r.1, r.2)
  | .tvOff c, tvs => let r := c.undo tvs; (.tvOff r.1, r.2)
  | .tvSwitchChannel c, tvs => let r := c.undo tvs; (.tvSwitchChannel r.1, r.2)

/-- Virtual call `redo()`. -/
def ICommand.redo : ICommand → TvMem → ICommand × TvMem
  | .tvOn c, tvs => let r := c.redo tvs; (.tvOn r.1, r.2)
  | .tvOff c, tvs => let r := c.redo tvs; (.tvOff r.1, r.2)
  | .tvSwitchChannel c, tvs => let r := c.redo tvs; (.tvSwitchChannel r.1, r.2)

/-! ## The controller -/

/-- The type `commandStack_t`, a `std::stack<std::shared_ptr<ICommand>>`; the head
of the list is `top()`. -/
abbrev commandStack_t := List CmdPtr

/-- The class `CommandManager`: members `mUndoStack` and `mRedoStack`. -/
structure CommandManager where
  mUndoStack : commandStack_t
  mRedoStack : commandStack_t
deriving DecidableEq

/-- Constructor `CommandManager() {}`: both stacks are default-constructed, empty. -/
def CommandManager.new : CommandManager := { mUndoStack := [], mRedoStack := [] }

/-- Program state: the `Tv` objects, the command objects on the free store, the
next address `new` hands out, and the command manager. -/
structure State where
  tvs : TvMem
  cmds : CmdPtr → ICommand
  next : CmdPtr
  commandManager : CommandManager

/-- The call `p->m()` of a method `m` of the interface through the handle `p`: the
method runs on the object `p` points to and on the `Tv` memory; the object and
the `Tv` memory are written back. -/
def State.call (s : State) (p : CmdPtr) (m : ICommand → TvMem → ICommand × TvMem) : State :=
  let r := m (s.cmds p) s.tvs
  { s with cmds := Function.update s.cmds p r.1, tvs := r.2 }

/-- The member `CommandManager::executeCmd`:
`mRedoStack = commandStack_t(); command->execute(); mUndoStack.push(command);`. -/
def CommandManager.executeCmd (s : State) (command : CmdPtr) : State :=
  let s1 := { s with commandManager := { s.commandManager with mRedoStack := [] } }
  let s2 := s1.call command ICommand.execute
  { s2 with commandManager :=
      { s2.commandManager with mUndoStack := command :: s2.commandManager.mUndoStack } }

/-- The member `CommandManager::undo`: returns at once when `mUndoStack.size() <= 0`;
otherwise `mUndoStack.top()->undo(); mRedoStack.push(mUndoStack.top()); mUndoStack.pop();`. -/
def CommandManager.undo (s : State) : State :=
  if s.commandManager.mUndoStack.length ≤ 0 then s
  else
    match s.commandManager.mUndoStack with
    | [] => s
    | top :: _ =>
      let s1 := s.call top ICommand.undo
      let s2 := { s1 with commandManager :=
        { s1.commandManager with mRedoStack := top :: s1.commandManager.mRedoStack } }
      { s2 with commandManager :=
        { s2.commandManager with mUndoStack := s2.commandManager.mUndoStack.tail } }

/-- The member `CommandManager::redo`: returns at once when `mRedoStack.size() <= 0`;
otherwise `mRedoStack.top()->redo(); mUndoStack.push(mRedoStack.top()); mRedoStack.pop();`. -/
def CommandManager.redo (s : State) : State :=
  if s.commandManager.mRedoStack.length ≤ 0 then s
  else
    match s.commandManager.mRedoStack with
    | [] => s
    | top :: _ =>
      let s1 := s.call top ICommand.redo
      let s2 := { s1 with commandManager :=
        { s1.commandManager with mUndoStack := top :: s1.commandManager.mUndoStack } }
      { s2 with commandManager :=
        { s2.commandManager with mRedoStack := s2.commandManager.mRedoStack.tail } }

/-! ## The driver -/

/-- The expression `new C(...)` for a command object `obj`: the object is placed at
the next free address, which becomes the handle. -/
def State.alloc (s : State) (obj : ICommand) : CmdPtr × State :=
  (s.next, { s with cmds := Function.update s.cmds s.next obj, next := s.next + 1 })

/-- The two driver lines
`std::shared_ptr<ICommand> c(new TvSwitchChannelCommand(&tv, channel));
commandManager.executeCmd(c);`
where `indet` gives the content of uninitialised storage at each address. -/
def switchTo (indet : CmdPtr → Int) (tv : TvPtr) (s : State) (channel : Int) : State :=
  let r := s.alloc (.tvSwitchChannel (TvSwitchChannelCommand.new tv channel (indet s.next)))
  CommandManager.executeCmd r.2 r.1

/-- The driver lines of `switchTo` repeated for the targets `c1, ..., cn` in order. -/
def switchAll (indet : CmdPtr → Int) (tv : TvPtr) (s : State) (targets : List Int) : State :=
  targets.foldl (switchTo indet tv) s

/-- The state in which `main` starts: `Tv tv;` (object at address `0`, members with
arbitrary content `tv0`), `CommandManager commandManager;` and an empty free
store whose raw content is `cmds0`. -/
def initState (tv0 : Tv) (cmds0 : CmdPtr → ICommand) : State :=
  { tvs := fun _ => tv0, cmds := cmds0, next := 0, commandManager := CommandManager.new }

/-- The function `main`, returning the channel numbers it prints, in order (each
`tv.getChannel()` sent to `std::cout`). -/
def main (tv0 : Tv) (cmds0 : CmdPtr → ICommand) (indet : CmdPtr → Int) : List Int :=
  let tv : TvPtr := 0
  let s0 := initState tv0 cmds0
  let s1 := switchTo indet tv s0 1
  let o1 := (s1.tvs tv).getChannel
  let s2 := switchTo indet tv s1 2
  let o2 := (s2.tvs tv).getChannel
  let s3 := switchTo indet tv s2 3
  let o3 := (s3.tvs tv).getChannel
  let s4 := CommandManager.undo s3
  let o4 := (s4.tvs tv).getChannel
  let s5 := CommandManager.undo s4
  let o5 := (s5.tvs tv).getChannel
  let s6 := CommandManager.redo s5
  let o6 := (s6.tvs tv).getChannel
  let s7 := CommandManager.redo s6
  let o7 := (s7.tvs tv).getChannel
  [o1, o2, o3, o4, o5, o6, o7]

/-! ## History chains

The predicates below describe the command objects held by the two stacks when
every executed command is a freshly built `TvSwitchChannelCommand` on the `Tv`
at address `tv`. -/

/-- The undo stack `ps` (top first) holds channel switches with targets `ts` (top
first): each command has saved the target of the command below it, the bottom
one has saved `c0`. -/
def UndoChain (cmds : CmdPtr → ICommand) (tv : TvPtr) (c0 : Int) :
    List CmdPtr → List Int → Prop
  | [], [] => True
  | p :: ps, t :: ts =>
    cmds p = .tvSwitchChannel { mTv := tv, mOldChannel := ts.headD c0, mNewChannel := t } ∧
      UndoChain cmds tv c0 ps ts
  | _, _ => False

/-- The redo stack `ps` (top first) holds channel switches with targets `ts` (top
first): the top command has saved `cur`, each other command has saved the target
of the command above it. -/
def RedoChain (cmds : CmdPtr → ICommand) (tv : TvPtr) :
    Int → List CmdPtr → List Int → Prop
  | _, [], [] => True
  | cur, p :: ps, t :: ts =>
    cmds p = .tvSwitchChannel { mTv := tv, mOldChannel := cur, mNewChannel := t } ∧
      RedoChain cmds tv t ps ts
  | _, _, _ => False

/-- History invariant of a state: `ut` are the targets of the undo stack, `rt` the
targets of the redo stack (both top first), `c0` the channel before the first
command; the channel of the `Tv` is the target on top of the undo stack, and
every handle on a stack is an allocated address. -/
structure Hist (s : State) (tv : TvPtr) (c0 : Int) (ut rt : List Int) : Prop where
  undoChain : UndoChain s.cmds tv c0 s.commandManager.mUndoStack ut
  redoChain : RedoChain s.cmds tv (ut.headD c0) s.commandManager.mRedoStack rt
  channel : (s.tvs tv).getChannel = ut.headD c0
  undoBound : ∀ p ∈ s.commandManager.mUndoStack, p < s.next
  redoBound : ∀ p ∈ s.commandManager.mRedoStack, p < s.next

/-- The state sits at position `i` of the timeline `targets`: the first `i` targets
are on the undo stack, the remaining ones on the redo stack. -/
def Cursor (s : State) (tv : TvPtr) (c0 : Int) (targets : List Int) (i : Nat) : Prop :=
  i ≤ targets.length ∧ Hist s tv c0 (targets.take i).reverse (targets.drop i)

/-! ## Client actions

What a caller can do with the manager: build a new command object and hand it
to `executeCmd` (as `main` does three times), call `undo`, call `redo`. -/

/-- A `new` expression for a command: the class that is constructed and the
constructor arguments. -/
inductive NewExpr where
  | tvOn (tv : TvPtr)
  | tvOff (tv : TvPtr)
  | tvSwitchChannel (tv : TvPtr) (channel : Int)
deriving DecidableEq

/-- The object a `new` expression builds in storage whose unassigned members hold
`indet`. -/
def NewExpr.construct (indet : Int) : NewExpr → ICommand
  | .tvOn tv => .tvOn (TvOnCommand.new tv)
  | .tvOff tv => .tvOff (TvOffCommand.new tv)
  | .tvSwitchChannel tv channel =>
    .tvSwitchChannel (TvSwitchChannelCommand.new tv channel indet)

/-- One action of the caller. `executeNew e` stands for the two lines
`std::shared_ptr<ICommand> c(new ...); commandManager.executeCmd(c);`. -/
inductive Action where
  | executeNew (e : NewExpr)
  | undo
  | redo
deriving DecidableEq

/-- The state after one action of the caller; `indet` gives the content of
uninitialised storage at each address. -/
def step (indet : CmdPtr → Int) (s : State) : Action → State
  | .executeNew e =>
    let r := s.alloc (e.construct (indet s.next))
    CommandManager.executeCmd r.2 r.1
  | .undo => CommandManager.undo s
  | .redo => CommandManager.redo s

/-- The state after a sequence of actions of the caller. -/
def run (indet : CmdPtr → Int) (s : State) (acts : List Action) : State :=
  acts.foldl (step indet) s

/-- The handles on which `execute()` has been called while the actions `acts` were
performed from the state `s`: `executeCmd` calls `command->execute()` on the handle
it is given, which for `executeNew` is the address of the new object. -/
def executedHandles (indet : CmdPtr → Int) : State → List Action → List CmdPtr
  | _, [] => []
  | s, .executeNew e :: acts => s.next :: executedHandles indet (step indet s (.executeNew e)) acts
  | s, .undo :: acts => executedHandles indet (step indet s .undo) acts
  | s, .redo :: acts => executedHandles indet (step indet s .redo) acts

/-- The action is `undo`, `redo`, or `executeCmd` of a new channel switch bound to the
`Tv` at address `tv`. -/
def Action.onChannel (tv : TvPtr) : Action → Bool
  | .executeNew (.tvSwitchChannel tv2 _) => decide (tv2 = tv)
  | .executeNew _ => false
  | .undo => true
  | .redo => true

/-- Every handle held by the two stacks. -/
def State.held (s : State) : List CmdPtr :=
  s.commandManager.mUndoStack ++ s.commandManager.mRedoStack

/-- The timeline of a state: the undo stack read from bottom to top, followed by the
redo stack read from top to bottom. -/
def State.timeline (s : State) : List CmdPtr :=
  s.commandManager.mUndoStack.reverse ++ s.commandManager.mRedoStack

/-- Two states that agree on everything a method call through the manager can read:
the `Tv` memory, the allocation frontier, the two stacks, and the command objects
behind the handles on the stacks. -/
def Agree (s1 s2 : State) : Prop :=
  s1.tvs = s2.tvs ∧ s1.next = s2.next ∧ s1.commandManager = s2.commandManager ∧
    ∀ p ∈ s1.held, s1.cmds p = s2.cmds p

/-! ## Basic facts about the controller -/

theorem executeCmd_eq (s : State) (command : CmdPtr) :
    CommandManager.executeCmd s command =
      { tvs := ((s.cmds command).execute s.tvs).2
        cmds := Function.update s.cmds command ((s.cmds command).execute s.tvs).1
        next := s.next
        commandManager :=
          { mUndoStack := command :: s.commandManager.mUndoStack, mRedoStack := [] } } :=
  rfl

theorem undo_nil (s : State) (h : s.commandManager.mUndoStack = []) :
    CommandManager.undo s = s := by
  simp [CommandManager.undo, h]

theorem redo_nil (s : State) (h : s.commandManager.mRedoStack = []) :
    CommandManager.redo s = s := by
  simp [CommandManager.redo, h]

theorem undo_cons (s : State) (top : CmdPtr) (rest : commandStack_t)
    (h : s.commandManager.mUndoStack = top :: rest) :
    CommandManager.undo s =
      { tvs := ((s.cmds top).undo s.tvs).2
        cmds := Function.update s.cmds top ((s.cmds top).undo s.tvs).1
        next := s.next
        commandManager :=
          { mUndoStack := rest, mRedoStack := top :: s.commandManager.mRedoStack } } := by
  simp [CommandManager.undo, State.call, h]

theorem redo_cons (s : State) (top : CmdPtr) (rest : commandStack_t)
    (h : s.commandManager.mRedoStack = top :: rest) :
    CommandManager.redo s =
      { tvs := ((s.cmds top).redo s.tvs).2
        cmds := Function.update s.cmds top ((s.cmds top).redo s.tvs).1
        next := s.next
        commandManager :=
          { mUndoStack := top :: s.commandManager.mUndoStack, mRedoStack := rest } } := by
  simp [CommandManager.redo, State.call, h]

/-! ## Facts about history chains -/

theorem switchTo_eq (indet : CmdPtr → Int) (tv : TvPtr) (s : State) (channel : Int) :
    switchTo indet tv s channel =
      { tvs := Function.update s.tvs tv ((s.tvs tv).switchChannel channel)
        cmds := Function.update s.cmds s.next
          (.tvSwitchChannel
            { mTv := tv, mOldChannel := (s.tvs tv).getChannel, mNewChannel := channel })
        next := s.next + 1
        commandManager :=
          { mUndoStack := s.next :: s.commandManager.mUndoStack, mRedoStack := [] } } := by
  simp [switchTo, State.alloc, executeCmd_eq, ICommand.execute,
    TvSwitchChannelCommand.execute, TvSwitchChannelCommand.new]

theorem undoChain_congr {cmds cmds2 : CmdPtr → ICommand} {tv : TvPtr} {c0 : Int} :
    ∀ {ps : List CmdPtr} {ts : List Int}, (∀ p ∈ ps, cmds2 p = cmds p) →
      UndoChain cmds tv c0 ps ts → UndoChain cmds2 tv c0 ps ts
  | [], [], _, _ => trivial
  | [], _ :: _, _, h => h.elim
  | _ :: _, [], _, h => h.elim
  | p :: ps, t :: ts, hagree, h => by
    refine ⟨?_, undoChain_congr (fun q hq => hagree q (List.mem_cons_of_mem _ hq)) h.2⟩
    rw [hagree p (List.mem_cons_self _ _)]
    exact h.1

theorem undoChain_length {cmds : CmdPtr → ICommand} {tv : TvPtr} {c0 : Int} :
    ∀ {ps : List CmdPtr} {ts : List Int}, UndoChain cmds tv c0 ps ts → ps.length = ts.length
  | [], [], _ => rfl
  | [], _ :: _, h => h.elim
  | _ :: _, [], h => h.elim
  | _ :: _, _ :: _, h => by simp [undoChain_length h.2]

theorem redoChain_length {cmds : CmdPtr → ICommand} {tv : TvPtr} :
    ∀ {cur : Int} {ps : List CmdPtr} {ts : List Int},
      RedoChain cmds tv cur ps ts → ps.length = ts.length
  | _, [], [], _ => rfl
  | _, [], _ :: _, h => h.elim
  | _, _ :: _, [], h => h.elim
  | _, _ :: _, _ :: _, h => by simp [redoChain_length h.2]

theorem hist_fresh (tvs : TvMem) (cmds : CmdPtr → ICommand) (next : CmdPtr) (tv : TvPtr) :
    Hist ⟨tvs, cmds, next, CommandManager.new⟩ tv (tvs tv).getChannel [] [] where
  undoChain := trivial
  redoChain := trivial
  channel := rfl
  undoBound := by simp [CommandManager.new]
  redoBound := by simp [CommandManager.new]

theorem hist_switchTo {s : State} {tv : TvPtr} {c0 : Int} {ut rt : List Int}
    (indet : CmdPtr → Int) (c : Int) (h : Hist s tv c0 ut rt) :
    Hist (switchTo indet tv s c) tv c0 (c :: ut) [] := by
  rw [switchTo_eq]
  refine ⟨⟨?_, ?_⟩, trivial, ?_, ?_, ?_⟩
  · simp [h.channel]
  · refine undoChain_congr (fun p hp => ?_) h.undoChain
    exact Function.update_noteq (Nat.ne_of_lt (h.undoBound p hp)) _ _
  · simp [Tv.getChannel, Tv.switchChannel]
  · intro p hp
    rcases List.mem_cons.1 hp with rfl | hp
    · exact Nat.lt_succ_self _
    · exact Nat.lt_succ_of_lt (h.undoBound p hp)
  · intro p hp
    cases hp

theorem hist_undo_nil {s : State} {tv : TvPtr} {c0 : Int} {rt : List Int}
    (h : Hist s tv c0 [] rt) : CommandManager.undo s = s := by
  apply undo_nil
  exact List.length_eq_zero.1 (undoChain_length h.undoChain)

theorem hist_redo_nil {s : State} {tv : TvPtr} {c0 : Int} {ut : List Int}
    (h : Hist s tv c0 ut []) : CommandManager.redo s = s := by
  apply redo_nil
  exact List.length_eq_zero.1 (redoChain_length h.redoChain)

theorem hist_undo_cons {s : State} {tv : TvPtr} {c0 t : Int} {ts rt : List Int}
    (h : Hist s tv c0 (t :: ts) rt) : Hist (CommandManager.undo s) tv c0 ts (t :: rt) := by
  obtain ⟨hu, hr, hc, hub, hrb⟩ := h
  match hs : s.commandManager.mUndoStack, hu with
  | p :: ps, hu =>
    obtain ⟨hp, hps⟩ := hu
    have hcmds : Function.update s.cmds p ((s.cmds p).undo s.tvs).1 = s.cmds := by
      have hself : ((s.cmds p).undo s.tvs).1 = s.cmds p := by rw [hp]; rfl
      rw [hself, Function.update_eq_self]
    rw [undo_cons s p ps hs, hcmds]
    rw [hs] at hub
    refine ⟨hps, ⟨?_, hr⟩, ?_, ?_, ?_⟩
    · exact hp
    · simp [hp, ICommand.undo, TvSwitchChannelCommand.undo, Tv.getChannel, Tv.switchChannel]
    · intro q hq
      exact hub q (List.mem_cons_of_mem _ hq)
    · intro q hq
      rcases List.mem_cons.1 hq with rfl | hq
      · exact hub _ (List.mem_cons_self _ _)
      · exact hrb q hq

theorem hist_redo_cons {s : State} {tv : TvPtr} {c0 t : Int} {ut rt : List Int}
    (h : Hist s tv c0 ut (t :: rt)) : Hist (CommandManager.redo s) tv c0 (t :: ut) rt := by
  obtain ⟨hu, hr, hc, hub, hrb⟩ := h
  match hs : s.commandManager.mRedoStack, hr with
  | p :: ps, hr =>
    obtain ⟨hp, hps⟩ := hr
    have hcmds : Function.update s.cmds p ((s.cmds p).redo s.tvs).1 = s.cmds := by
      have hself : ((s.cmds p).redo s.tvs).1 = s.cmds p := by rw [hp]; rfl
      rw [hself, Function.update_eq_self]
    rw [redo_cons s p ps hs, hcmds]
    rw [hs] at hrb
    refine ⟨⟨hp, hu⟩, hps, ?_, ?_, ?_⟩
    · simp [hp, ICommand.redo, TvSwitchChannelCommand.redo, Tv.getChannel, Tv.switchChannel]
    · intro q hq
      rcases List.mem_cons.1 hq with rfl | hq
      · exact hrb _ (List.mem_cons_self _ _)
      · exact hub q hq
    · intro q hq
      exact hrb q (List.mem_cons_of_mem _ hq)

theorem hist_switchAll (indet : CmdPtr → Int) {tv : TvPtr} {c0 : Int} :
    ∀ (targets : List Int) {s : State} {ut : List Int}, Hist s tv c0 ut [] →
      Hist (switchAll indet tv s targets) tv c0 (targets.reverse ++ ut) []
  | [], _, _, h => by simpa [switchAll] using h
  | c :: cs, s, ut, h => by
    have ih := hist_switchAll indet cs (hist_switchTo indet c h)
    simpa [switchAll] using ih

theorem take_succ_reverse (l : List Int) (i : Nat) (h : i < l.length) :
    (l.take (i + 1)).reverse = l[i] :: (l.take i).reverse := by
  rw [List.take_succ, List.getElem?_eq_getElem h]
  simp

theorem cursor_switchAll (indet : CmdPtr → Int) (tv : TvPtr) (tvs : TvMem)
    (cmds : CmdPtr → ICommand) (next : CmdPtr) (targets : List Int) :
    Cursor (switchAll indet tv ⟨tvs, cmds, next, CommandManager.new⟩ targets) tv
      (tvs tv).getChannel targets targets.length := by
  refine ⟨le_refl _, ?_⟩
  have h := hist_switchAll indet targets (hist_fresh tvs cmds next tv)
  simpa using h

theorem cursor_channel {s : State} {tv : TvPtr} {c0 : Int} {targets : List Int} {i : Nat}
    (h : Cursor s tv c0 targets i) : (c0 :: targets)[i]? = some (s.tvs tv).getChannel := by
  obtain ⟨hi, hh⟩ := h
  rw [hh.channel]
  cases i with
  | zero => simp
  | succ i =>
    have hlt : i < targets.length := hi
    rw [take_succ_reverse targets i hlt]
    simp [List.getElem?_eq_getElem hlt]

theorem cursor_undo {s : State} {tv : TvPtr} {c0 : Int} {targets : List Int} {i : Nat}
    (h : Cursor s tv c0 targets i) : Cursor (CommandManager.undo s) tv c0 targets (i - 1) := by
  obtain ⟨hi, hh⟩ := h
  cases i with
  | zero =>
    have hnil : Hist s tv c0 [] (targets.drop 0) := by simpa using hh
    rw [hist_undo_nil hnil]
    exact ⟨hi, hh⟩
  | succ i =>
    have hlt : i < targets.length := hi
    refine ⟨Nat.le_of_lt hlt, ?_⟩
    rw [take_succ_reverse targets i hlt] at hh
    have hd : targets.drop i = targets[i] :: targets.drop (i + 1) :=
      List.drop_eq_getElem_cons hlt
    have h2 := hist_undo_cons hh
    rw [Nat.add_sub_cancel, hd]
    exact h2

theorem cursor_redo {s : State} {tv : TvPtr} {c0 : Int} {targets : List Int} {i : Nat}
    (h : Cursor s tv c0 targets i) :
    Cursor (CommandManager.redo s) tv c0 targets (min (i + 1) targets.length) := by
  obtain ⟨hi, hh⟩ := h
  rcases Nat.lt_or_ge i targets.length with hlt | hge
  · have hd : targets.drop i = targets[i] :: targets.drop (i + 1) :=
      List.drop_eq_getElem_cons hlt
    rw [hd] at hh
    rw [Nat.min_eq_left hlt]
    refine ⟨hlt, ?_⟩
    rw [take_succ_reverse targets i hlt]
    exact hist_redo_cons hh
  · have hi2 : i = targets.length := Nat.le_antisymm hi hge
    subst hi2
    have hnil : Hist s tv c0 (targets.take targets.length).reverse [] := by simpa using hh
    rw [hist_redo_nil hnil, Nat.min_eq_right (Nat.le_succ _)]
    exact ⟨hi, hh⟩

theorem cursor_undo_iterate {tv : TvPtr} {c0 : Int} {targets : List Int} :
    ∀ (k : Nat) {s : State} {i : Nat}, Cursor s tv c0 targets i →
      Cursor (Nat.iterate CommandManager.undo k s) tv c0 targets (i - k)
  | 0, _, _, h => h
  | k + 1, s, i, h => by
    have ih := cursor_undo_iterate k (cursor_undo h)
    have hik : i - 1 - k = i - (k + 1) := by omega
    rw [hik] at ih
    exact ih

theorem cursor_redo_iterate {tv : TvPtr} {c0 : Int} {targets : List Int} :
    ∀ (j : Nat) {s : State} {i : Nat}, Cursor s tv c0 targets i →
      Cursor (Nat.iterate CommandManager.redo j s) tv c0 targets (min (i + j) targets.length)
  | 0, _, _, h => by
    rw [Nat.add_zero, Nat.min_eq_left h.1]
    exact h
  | j + 1, s, i, h => by
    have ih := cursor_redo_iterate j (cursor_redo h)
    have hij : min (min (i + 1) targets.length + j) targets.length =
        min (i + (j + 1)) targets.length := by omega
    rw [hij] at ih
    exact ih

theorem cursor_zero_undo {s : State} {tv : TvPtr} {c0 : Int} {targets : List Int}
    (h : Cursor s tv c0 targets 0) : CommandManager.undo s = s :=
  hist_undo_nil (by simpa using h.2)

theorem cursor_length_redo {s : State} {tv : TvPtr} {c0 : Int} {targets : List Int}
    (h : Cursor s tv c0 targets targets.length) : CommandManager.redo s = s :=
  hist_redo_nil (by simpa using h.2)

theorem cursor_length_redoStack {s : State} {tv : TvPtr} {c0 : Int} {targets : List Int}
    (h : Cursor s tv c0 targets targets.length) : s.commandManager.mRedoStack = [] := by
  have hr := redoChain_length h.2.redoChain
  simpa using hr

theorem last_index (c0 : Int) (targets : List Int) (h : targets ≠ []) :
    (c0 :: targets)[targets.length]? = some (targets.getLast h) := by
  cases targets with
  | nil => exact absurd rfl h
  | cons t ts =>
    rw [List.getLast_eq_getElem]
    simp [List.getElem?_eq_getElem]

/-! ## The controller contract -/

/-- C1: for every state and every command handle, `executeCmd` runs the command's
`execute` once on the `Tv` memory and on the command object, leaves every other
command object as it was, pushes the handle on the previous undo stack (depth
plus one, entries below unchanged) and leaves the redo stack empty. -/
theorem executeCmd_contract (s : State) (command : CmdPtr) :
    (CommandManager.executeCmd s command).tvs = ((s.cmds command).execute s.tvs).2 ∧
    (CommandManager.executeCmd s command).cmds command =
      ((s.cmds command).execute s.tvs).1 ∧
    (∀ q, q ≠ command → (CommandManager.executeCmd s command).cmds q = s.cmds q) ∧
    (CommandManager.executeCmd s command).commandManager.mUndoStack =
      command :: s.commandManager.mUndoStack ∧
    (CommandManager.executeCmd s command).commandManager.mUndoStack.length =
      s.commandManager.mUndoStack.length + 1 ∧
    (CommandManager.executeCmd s command).commandManager.mRedoStack = [] := by
  rw [executeCmd_eq]
  refine ⟨rfl, ?_, ?_, rfl, ?_, rfl⟩
  · simp
  · intro q hq
    simp [Function.update_noteq hq]
  · simp

/-- C2: in every state whose undo stack is `top :: rest`, `undo` runs the `undo` method
of the command `top` once, leaves every other command object as it was, and moves
the handle `top` to the top of the redo stack: the undo stack becomes `rest`, the
redo stack becomes `top` pushed on the previous redo stack, the depths change by
exactly one. -/
theorem undo_contract (tvs : TvMem) (cmds : CmdPtr → ICommand) (next : CmdPtr)
    (top : CmdPtr) (rest redoStack : commandStack_t) :
    (CommandManager.undo ⟨tvs, cmds, next, ⟨top :: rest, redoStack⟩⟩).tvs =
      ((cmds top).undo tvs).2 ∧
    (CommandManager.undo ⟨tvs, cmds, next, ⟨top :: rest, redoStack⟩⟩).cmds top =
      ((cmds top).undo tvs).1 ∧
    (∀ q, q ≠ top →
      (CommandManager.undo ⟨tvs, cmds, next, ⟨top :: rest, redoStack⟩⟩).cmds q = cmds q) ∧
    (CommandManager.undo ⟨tvs, cmds, next, ⟨top :: rest, redoStack⟩⟩).commandManager.mUndoStack
      = rest ∧
    (CommandManager.undo ⟨tvs, cmds, next, ⟨top :: rest, redoStack⟩⟩).commandManager.mRedoStack
      = top :: redoStack ∧
    (CommandManager.undo
        ⟨tvs, cmds, next, ⟨top :: rest, redoStack⟩⟩).commandManager.mUndoStack.length + 1
      = (top :: rest).length ∧
    (CommandManager.undo
        ⟨tvs, cmds, next, ⟨top :: rest, redoStack⟩⟩).commandManager.mRedoStack.length
      = redoStack.length + 1 := by
  rw [undo_cons _ top rest rfl]
  refine ⟨rfl, ?_, ?_, rfl, rfl, ?_, ?_⟩
  · simp
  · intro q hq
    simp [Function.update_noteq hq]
  · simp
  · simp

/-- C3: in every state whose redo stack is `top :: rest`, `redo` runs the `redo` method
of the command `top` once, leaves every other command object as it was, and moves
the handle `top` to the top of the undo stack: the redo stack becomes `rest`, the
undo stack becomes `top` pushed on the previous undo stack, the depths change by
exactly one. -/
theorem redo_contract (tvs : TvMem) (cmds : CmdPtr → ICommand) (next : CmdPtr)
    (top : CmdPtr) (rest undoStack : commandStack_t) :
    (CommandManager.redo ⟨tvs, cmds, next, ⟨undoStack, top :: rest⟩⟩).tvs =
      ((cmds top).redo tvs).2 ∧
    (CommandManager.redo ⟨tvs, cmds, next, ⟨undoStack, top :: rest⟩⟩).cmds top =
      ((cmds top).redo tvs).1 ∧
    (∀ q, q ≠ top →
      (CommandManager.redo ⟨tvs, cmds, next, ⟨undoStack, top :: rest⟩⟩).cmds q = cmds q) ∧
    (CommandManager.redo ⟨tvs, cmds, next, ⟨undoStack, top :: rest⟩⟩).commandManager.mRedoStack
      = rest ∧
    (CommandManager.redo ⟨tvs, cmds, next, ⟨undoStack, top :: rest⟩⟩).commandManager.mUndoStack
      = top :: undoStack ∧
    (CommandManager.redo
        ⟨tvs, cmds, next, ⟨undoStack, top :: rest⟩⟩).commandManager.mRedoStack.length + 1
      = (top :: rest).length ∧
    (CommandManager.redo
        ⟨tvs, cmds, next, ⟨undoStack, top :: rest⟩⟩).commandManager.mUndoStack.length
      = undoStack.length + 1 := by
  rw [redo_cons _ top rest rfl]
  refine ⟨rfl, ?_, ?_, rfl, rfl, ?_, ?_⟩
  · simp
  · intro q hq
    simp [Function.update_noteq hq]
  · simp
  · simp

/-- C4: `undo` on an empty undo stack and `redo` on an empty redo stack return the state
they were called in, whatever the `Tv` memory, the command objects and the other
stack are: the power flag, the channel and both stacks are unchanged, and the
call completes (both functions are total). -/
theorem undo_redo_empty_noop (tvs : TvMem) (cmds : CmdPtr → ICommand) (next : CmdPtr)
    (other : commandStack_t) :
    CommandManager.undo ⟨tvs, cmds, next, ⟨[], other⟩⟩ = ⟨tvs, cmds, next, ⟨[], other⟩⟩ ∧
    CommandManager.redo ⟨tvs, cmds, next, ⟨other, []⟩⟩ = ⟨tvs, cmds, next, ⟨other, []⟩⟩ :=
  ⟨undo_nil _ rfl, redo_nil _ rfl⟩

/-- C5: for every state and every command handle, in the sequence `undo(); executeCmd(cmd);
redo()` the final `redo()` changes nothing: the state after it (the `Tv` memory, the
command objects and both stacks) is the state right after `executeCmd(cmd)`. -/
theorem redo_after_executeCmd_noop (s : State) (cmd : CmdPtr) :
    CommandManager.redo (CommandManager.executeCmd (CommandManager.undo s) cmd) =
      CommandManager.executeCmd (CommandManager.undo s) cmd :=
  redo_nil _ rfl

/-! ## Channel history -/

/-- C6: for every initial channel `c0` (the channel of the `Tv` at `tv` before the first
command), and every non-empty list of targets `c1, ..., cn`, after `executeCmd` of
`n` newly constructed channel switches with these targets, in order, on a fresh
manager, the channel of the `Tv` is `cn`. -/
theorem channel_after_executes (indet : CmdPtr → Int) (tv : TvPtr) (tvs : TvMem)
    (cmds : CmdPtr → ICommand) (next : CmdPtr) (targets : List Int) (h : targets ≠ []) :
    ((switchAll indet tv ⟨tvs, cmds, next, CommandManager.new⟩ targets).tvs tv).getChannel =
      targets.getLast h := by
  have hc := cursor_channel (cursor_switchAll indet tv tvs cmds next targets)
  rw [last_index (tvs tv).getChannel targets h] at hc
  exact (Option.some.inj hc).symm

theorem channel_after_executes_witness :
    [4, 5, 6] ≠ [] ∧
    ((switchAll (fun _ => 0) 0
        ⟨fun _ => ⟨false, 7⟩, fun _ => .tvOn ⟨0⟩, 0, CommandManager.new⟩
        [4, 5, 6]).tvs 0).getChannel = (6 : Int) :=
  ⟨by decide,
    channel_after_executes (fun _ => 0) 0 (fun _ => ⟨false, 7⟩) (fun _ => .tvOn ⟨0⟩) 0
      [4, 5, 6] (by decide)⟩

/-- C7: write `c0` for the initial channel and `c1, ..., cn` for the targets of `n` newly
constructed channel switches executed in order on a fresh manager. After `k ≤ n`
further calls of `undo` the channel is `c(n-k)`, the entry `n - k` of
`c0, c1, ..., cn`; after `k ≥ n` calls a further `undo` changes nothing and the
channel is `c0`. -/
theorem channel_after_undos (indet : CmdPtr → Int) (tv : TvPtr) (tvs : TvMem)
    (cmds : CmdPtr → ICommand) (next : CmdPtr) (targets : List Int) (k : Nat) :
    (k ≤ targets.length →
      ((tvs tv).getChannel :: targets)[targets.length - k]? =
        some ((Nat.iterate CommandManager.undo k
          (switchAll indet tv ⟨tvs, cmds, next, CommandManager.new⟩ targets)).tvs tv).getChannel) ∧
    (targets.length ≤ k →
      CommandManager.undo (Nat.iterate CommandManager.undo k
          (switchAll indet tv ⟨tvs, cmds, next, CommandManager.new⟩ targets)) =
        Nat.iterate CommandManager.undo k
          (switchAll indet tv ⟨tvs, cmds, next, CommandManager.new⟩ targets) ∧
      ((Nat.iterate CommandManager.undo k
          (switchAll indet tv ⟨tvs, cmds, next, CommandManager.new⟩ targets)).tvs tv).getChannel =
        (tvs tv).getChannel) := by
  have hcur := cursor_undo_iterate k (cursor_switchAll indet tv tvs cmds next targets)
  refine ⟨fun _ => cursor_channel hcur, fun hk => ?_⟩
  rw [Nat.sub_eq_zero_of_le hk] at hcur
  refine ⟨cursor_zero_undo hcur, ?_⟩
  have hc := cursor_channel hcur
  simpa using hc.symm

theorem channel_after_undos_witness :
    (1 ≤ [4, 5, 6].length ∧
      ((Nat.iterate CommandManager.undo 1
        (switchAll (fun _ => 0) 0
          ⟨fun _ => ⟨false, 7⟩, fun _ => .tvOn ⟨0⟩, 0, CommandManager.new⟩
          [4, 5, 6])).tvs 0).getChannel = (5 : Int)) ∧
    ([4, 5, 6].length ≤ 4 ∧
      ((Nat.iterate CommandManager.undo 4
        (switchAll (fun _ => 0) 0
          ⟨fun _ => ⟨false, 7⟩, fun _ => .tvOn ⟨0⟩, 0, CommandManager.new⟩
          [4, 5, 6])).tvs 0).getChannel = (7 : Int)) :=
  ⟨⟨by decide, (Option.some.inj
      ((channel_after_undos (fun _ => 0) 0 (fun _ => ⟨false, 7⟩) (fun _ => .tvOn ⟨0⟩) 0
        [4, 5, 6] 1).1 (by decide))).symm⟩,
    ⟨by decide,
      ((channel_after_undos (fun _ => 0) 0 (fun _ => ⟨false, 7⟩) (fun _ => .tvOn ⟨0⟩) 0
        [4, 5, 6] 4).2 (by decide)).2⟩⟩

/-- C8: write `c0` for the initial channel and `c1, ..., cn` (`n ≥ 1`) for the targets of
`n` newly constructed channel switches executed in order on a fresh manager, and
let `k ≤ n` calls of `undo` follow. After `j ≤ k` further calls of `redo` the channel
is `c(n-k+j)`; after `j ≥ k` calls the redo stack is empty, a further `redo` changes
nothing and the channel is `cn`. -/
theorem channel_after_redos (indet : CmdPtr → Int) (tv : TvPtr) (tvs : TvMem)
    (cmds : CmdPtr → ICommand) (next : CmdPtr) (targets : List Int) (h : targets ≠ [])
    (k j : Nat) (hk : k ≤ targets.length) :
    (j ≤ k →
      ((tvs tv).getChannel :: targets)[targets.length - k + j]? =
        some ((Nat.iterate CommandManager.redo j (Nat.iterate CommandManager.undo k
          (switchAll indet tv ⟨tvs, cmds, next, CommandManager.new⟩ targets))).tvs tv).getChannel) ∧
    (k ≤ j →
      (Nat.iterate CommandManager.redo j (Nat.iterate CommandManager.undo k
          (switchAll indet tv ⟨tvs, cmds, next, CommandManager.new⟩
            targets))).commandManager.mRedoStack = [] ∧
      CommandManager.redo (Nat.iterate CommandManager.redo j (Nat.iterate CommandManager.undo k
          (switchAll indet tv ⟨tvs, cmds, next, CommandManager.new⟩ targets))) =
        Nat.iterate CommandManager.redo j (Nat.iterate CommandManager.undo k
          (switchAll indet tv ⟨tvs, cmds, next, CommandManager.new⟩ targets)) ∧
      ((Nat.iterate CommandManager.redo j (Nat.iterate CommandManager.undo k
          (switchAll indet tv ⟨tvs, cmds, next, CommandManager.new⟩ targets))).tvs tv).getChannel =
        targets.getLast h) := by
  have hcur := cursor_redo_iterate j
    (cursor_undo_iterate k (cursor_switchAll indet tv tvs cmds next targets))
  constructor
  · intro hj
    rw [Nat.min_eq_left (by omega)] at hcur
    exact cursor_channel hcur
  · intro hj
    rw [Nat.min_eq_right (by omega)] at hcur
    refine ⟨cursor_length_redoStack hcur, cursor_length_redo hcur, ?_⟩
    have hc := cursor_channel hcur
    rw [last_index (tvs tv).getChannel targets h] at hc
    exact (Option.some.inj hc).symm

theorem channel_after_redos_witness :
    ([4, 5, 6] ≠ [] ∧ 2 ≤ [4, 5, 6].length) ∧
    (1 ≤ 2 ∧
      ((Nat.iterate CommandManager.redo 1 (Nat.iterate CommandManager.undo 2
        (switchAll (fun _ => 0) 0
          ⟨fun _ => ⟨false, 7⟩, fun _ => .tvOn ⟨0⟩, 0, CommandManager.new⟩
          [4, 5, 6]))).tvs 0).getChannel = (5 : Int)) ∧
    (2 ≤ 3 ∧
      ((Nat.iterate CommandManager.redo 3 (Nat.iterate CommandManager.undo 2
        (switchAll (fun _ => 0) 0
          ⟨fun _ => ⟨false, 7⟩, fun _ => .tvOn ⟨0⟩, 0, CommandManager.new⟩
          [4, 5, 6]))).tvs 0).getChannel = (6 : Int)) :=
  ⟨⟨by decide, by decide⟩,
    ⟨by decide, (Option.some.inj
      ((channel_after_redos (fun _ => 0) 0 (fun _ => ⟨false, 7⟩) (fun _ => .tvOn ⟨0⟩) 0
        [4, 5, 6] (by decide) 2 1 (by decide)).1 (by decide))).symm⟩,
    ⟨by decide,
      ((channel_after_redos (fun _ => 0) 0 (fun _ => ⟨false, 7⟩) (fun _ => .tvOn ⟨0⟩) 0
        [4, 5, 6] (by decide) 2 3 (by decide)).2 (by decide)).2.2⟩⟩

/-- C9: whatever the content of the uninitialised `Tv` and of uninitialised storage, the
channel numbers `main` prints after its seven steps (three `executeCmd` with targets
`1`, `2`, `3`, two `undo`, two `redo`) are `1, 2, 3, 2, 1, 2, 3`. -/
theorem main_trace (tv0 : Tv) (cmds0 : CmdPtr → ICommand) (indet : CmdPtr → Int) :
    main tv0 cmds0 indet = [1, 2, 3, 2, 1, 2, 3] := by
  rfl

/-! ## Power commands -/

/-- C10: for every content of the `Tv` memory (power flag on or off), `execute` of a
`TvOnCommand` gives `isOn() = true`, its `undo` then gives `false` and its `redo` then
gives `true`; `execute` of a `TvOffCommand` gives `isOn() = false`, its `undo` then
gives `true` and its `redo` then gives `false`. The same holds when the command is
the object behind a handle and is driven through `executeCmd`, `undo` and `redo` of
the manager, in every state of the manager. -/
theorem power_round_trip (tvs : TvMem) (tv : TvPtr) (s : State) (p q : CmdPtr)
    (hp : s.cmds p = .tvOn (TvOnCommand.new tv))
    (hq : s.cmds q = .tvOff (TvOffCommand.new tv)) :
    let on1 := (TvOnCommand.new tv).execute tvs
    let on2 := on1.1.undo on1.2
    let on3 := on2.1.redo on2.2
    let off1 := (TvOffCommand.new tv).execute tvs
    let off2 := off1.1.undo off1.2
    let off3 := off2.1.redo off2.2
    let sp1 := CommandManager.executeCmd s p
    let sp2 := CommandManager.undo sp1
    let sp3 := CommandManager.redo sp2
    let sq1 := CommandManager.executeCmd s q
    let sq2 := CommandManager.undo sq1
    let sq3 := CommandManager.redo sq2
    ((on1.2 tv).isOn = true ∧ (on2.2 tv).isOn = false ∧ (on3.2 tv).isOn = true) ∧
    ((off1.2 tv).isOn = false ∧ (off2.2 tv).isOn = true ∧ (off3.2 tv).isOn = false) ∧
    ((sp1.tvs tv).isOn = true ∧ (sp2.tvs tv).isOn = false ∧ (sp3.tvs tv).isOn = true) ∧
    ((sq1.tvs tv).isOn = false ∧ (sq2.tvs tv).isOn = true ∧ (sq3.tvs tv).isOn = false) := by
  intro on1 on2 on3 off1 off2 off3 sp1 sp2 sp3 sq1 sq2 sq3
  refine ⟨?_, ?_, ?_, ?_⟩
  · simp [on1, on2, on3, TvOnCommand.new, TvOnCommand.execute, TvOnCommand.undo, TvOnCommand.redo,
      Tv.isOn, Tv.switchOn, Tv.switchOff]
  · simp [off1, off2, off3, TvOffCommand.new, TvOffCommand.execute, TvOffCommand.undo, TvOffCommand.redo,
      TvOnCommand.new, TvOnCommand.execute, TvOnCommand.undo, TvOnCommand.redo,
      Tv.isOn, Tv.switchOn, Tv.switchOff]
  · simp [sp1, sp2, sp3, CommandManager.executeCmd, CommandManager.undo,
      CommandManager.redo, State.call, hp, ICommand.execute, ICommand.undo, ICommand.redo,
      TvOnCommand.new, TvOnCommand.execute, TvOnCommand.undo, TvOnCommand.redo,
      Tv.isOn, Tv.switchOn, Tv.switchOff]
  · simp [sq1, sq2, sq3, CommandManager.executeCmd, CommandManager.undo,
      CommandManager.redo, State.call, hq, ICommand.execute, ICommand.undo, ICommand.redo,
      TvOffCommand.new, TvOffCommand.execute, TvOffCommand.undo, TvOffCommand.redo,
      TvOnCommand.new, TvOnCommand.execute, TvOnCommand.undo, TvOnCommand.redo,
      Tv.isOn, Tv.switchOn, Tv.switchOff]

theorem power_round_trip_witness :
    ((fun n => if n = 0 then ICommand.tvOn (TvOnCommand.new 0)
        else ICommand.tvOff (TvOffCommand.new 0)) 0 = ICommand.tvOn (TvOnCommand.new 0) ∧
      (fun n => if n = 0 then ICommand.tvOn (TvOnCommand.new 0)
        else ICommand.tvOff (TvOffCommand.new 0)) 1 = ICommand.tvOff (TvOffCommand.new 0)) ∧
    ((CommandManager.undo (CommandManager.executeCmd
        ⟨fun _ => ⟨false, 7⟩,
          fun n => if n = 0 then ICommand.tvOn (TvOnCommand.new 0)
            else ICommand.tvOff (TvOffCommand.new 0),
          2, CommandManager.new⟩ 1)).tvs 0).isOn = true :=
  ⟨⟨by decide, by decide⟩,
    (power_round_trip (fun _ => ⟨false, 7⟩) 0
      ⟨fun _ => ⟨false, 7⟩,
        fun n => if n = 0 then ICommand.tvOn (TvOnCommand.new 0)
          else ICommand.tvOff (TvOffCommand.new 0),
        2, CommandManager.new⟩ 0 1 (by decide) (by decide)).2.2.2.2.1⟩

/-! ## Facts about single commands -/

theorem ICommand.undo_fst (c : ICommand) (tvs : TvMem) : (c.undo tvs).1 = c := by
  cases c <;> rfl

theorem ICommand.redo_fst (c : ICommand) (tvs : TvMem) : (c.redo tvs).1 = c := by
  cases c <;> rfl

theorem undo_cmds (s : State) : (CommandManager.undo s).cmds = s.cmds := by
  match hs : s.commandManager.mUndoStack with
  | [] => rw [undo_nil s hs]
  | top :: rest =>
    rw [undo_cons s top rest hs]
    show Function.update s.cmds top ((s.cmds top).undo s.tvs).1 = s.cmds
    rw [ICommand.undo_fst, Function.update_eq_self]

theorem redo_cmds (s : State) : (CommandManager.redo s).cmds = s.cmds := by
  match hs : s.commandManager.mRedoStack with
  | [] => rw [redo_nil s hs]
  | top :: rest =>
    rw [redo_cons s top rest hs]
    show Function.update s.cmds top ((s.cmds top).redo s.tvs).1 = s.cmds
    rw [ICommand.redo_fst, Function.update_eq_self]

theorem timeline_undo (s : State) : (CommandManager.undo s).timeline = s.timeline := by
  match hs : s.commandManager.mUndoStack with
  | [] => rw [undo_nil s hs]
  | top :: rest =>
    rw [undo_cons s top rest hs]
    simp [State.timeline, hs]

theorem timeline_redo (s : State) : (CommandManager.redo s).timeline = s.timeline := by
  match hs : s.commandManager.mRedoStack with
  | [] => rw [redo_nil s hs]
  | top :: rest =>
    rw [redo_cons s top rest hs]
    simp [State.timeline, hs]

/-! ## Command contracts -/

/-- C11: for every `Tv` memory, address `tv`, target `t` and content `indet` of the
unassigned member, `execute` of a new `TvSwitchChannelCommand(tv, t)` stores the
channel the `Tv` had before the call in `mOldChannel`, keeps `mTv` and
`mNewChannel`, and sets the channel to `t`. On the executed command, in every later
`Tv` memory `later`, `undo` sets the channel to the stored previous channel and
`redo` sets it to `t`, and neither changes a member of the command. -/
theorem switchChannel_contract (tvs later : TvMem) (tv : TvPtr) (t indet : Int) :
    let e := (TvSwitchChannelCommand.new tv t indet).execute tvs
    (e.1.mOldChannel = (tvs tv).getChannel ∧ e.1.mNewChannel = t ∧ e.1.mTv = tv ∧
      (e.2 tv).getChannel = t) ∧
    (((e.1.undo later).2 tv).getChannel = (tvs tv).getChannel ∧ (e.1.undo later).1 = e.1) ∧
    (((e.1.redo later).2 tv).getChannel = t ∧ (e.1.redo later).1 = e.1) := by
  intro e
  simp [e, TvSwitchChannelCommand.new, TvSwitchChannelCommand.execute,
    TvSwitchChannelCommand.undo, TvSwitchChannelCommand.redo, Tv.getChannel, Tv.switchChannel]

/-- C12: for every `Tv` memory and every `TvOffCommand` `d`, `d.execute` changes the `Tv`
memory as `undo` of the held `TvOnCommand` does, `d.undo` as its `execute` does and
`d.redo` as its `undo` does; for a command built by `TvOffCommand(tv)` the held
command is the one built by `TvOnCommand(tv)`. -/
theorem tvOff_inverts_tvOn (tvs : TvMem) (d : TvOffCommand) (tv : TvPtr) :
    ((d.execute tvs).2 = (d.mTvOnCommand.undo tvs).2 ∧
      (d.undo tvs).2 = (d.mTvOnCommand.execute tvs).2 ∧
      (d.redo tvs).2 = (d.mTvOnCommand.undo tvs).2) ∧
    (((TvOffCommand.new tv).execute tvs).2 = ((TvOnCommand.new tv).undo tvs).2 ∧
      ((TvOffCommand.new tv).undo tvs).2 = ((TvOnCommand.new tv).execute tvs).2 ∧
      ((TvOffCommand.new tv).redo tvs).2 = ((TvOnCommand.new tv).undo tvs).2) :=
  ⟨⟨rfl, rfl, rfl⟩, ⟨rfl, rfl, rfl⟩⟩

/-- C13: in every state, `undo` and `redo` of the manager leave every command object as
it was, the moved one included: the object behind every handle `p`, hence the stored
previous channel and the target of every channel switch, is the same before and
after the call. -/
theorem undo_redo_keep_commands (s : State) (p : CmdPtr) :
    (CommandManager.undo s).cmds p = s.cmds p ∧ (CommandManager.redo s).cmds p = s.cmds p := by
  rw [undo_cmds, redo_cmds]
  exact ⟨rfl, rfl⟩

/-- C14: `switchOn` and `switchOff` set the power flag and keep the channel,
`switchChannel n` sets the channel to `n` and keeps the power flag; the three methods
of a `TvOnCommand` and of a `TvOffCommand` keep the channel of every `Tv`, and the
three methods of a `TvSwitchChannelCommand` keep the power flag of every `Tv`. -/
theorem model_frame (t : Tv) (n : Int) (tvs : TvMem) (a : TvPtr) (c : TvOnCommand)
    (d : TvOffCommand) (w : TvSwitchChannelCommand) :
    (t.switchOn.isOn = true ∧ t.switchOn.getChannel = t.getChannel) ∧
    (t.switchOff.isOn = false ∧ t.switchOff.getChannel = t.getChannel) ∧
    ((t.switchChannel n).getChannel = n ∧ (t.switchChannel n).isOn = t.isOn) ∧
    (((c.execute tvs).2 a).getChannel = (tvs a).getChannel ∧
      ((c.undo tvs).2 a).getChannel = (tvs a).getChannel ∧
      ((c.redo tvs).2 a).getChannel = (tvs a).getChannel) ∧
    (((d.execute tvs).2 a).getChannel = (tvs a).getChannel ∧
      ((d.undo tvs).2 a).getChannel = (tvs a).getChannel ∧
      ((d.redo tvs).2 a).getChannel = (tvs a).getChannel) ∧
    (((w.execute tvs).2 a).isOn = (tvs a).isOn ∧
      ((w.undo tvs).2 a).isOn = (tvs a).isOn ∧
      ((w.redo tvs).2 a).isOn = (tvs a).isOn) := by
  refine ⟨⟨rfl, rfl⟩, ⟨rfl, rfl⟩, ⟨rfl, rfl⟩, ?_, ?_, ?_⟩
  · by_cases h : a = c.mTv <;>
      simp [TvOnCommand.execute, TvOnCommand.undo, TvOnCommand.redo, Function.update_apply, h,
        Tv.getChannel, Tv.switchOn, Tv.switchOff]
  · by_cases h : a = d.mTvOnCommand.mTv <;>
      simp [TvOffCommand.execute, TvOffCommand.undo, TvOffCommand.redo,
        TvOnCommand.execute, TvOnCommand.undo, TvOnCommand.redo, Function.update_apply, h,
        Tv.getChannel, Tv.switchOn, Tv.switchOff]
  · by_cases h : a = w.mTv <;>
      simp [TvSwitchChannelCommand.execute, TvSwitchChannelCommand.undo,
        TvSwitchChannelCommand.redo, Function.update_apply, h, Tv.isOn, Tv.switchChannel]

/-- C17: in every state, the undo stack read from bottom to top followed by the redo
stack read from top to bottom is the same sequence of handles before and after
`undo`, and before and after `redo`; so is the number of handles held by the two
stacks together. -/
theorem timeline_fixed (s : State) :
    ((CommandManager.undo s).commandManager.mUndoStack.reverse ++
        (CommandManager.undo s).commandManager.mRedoStack =
      s.commandManager.mUndoStack.reverse ++ s.commandManager.mRedoStack ∧
    (CommandManager.redo s).commandManager.mUndoStack.reverse ++
        (CommandManager.redo s).commandManager.mRedoStack =
      s.commandManager.mUndoStack.reverse ++ s.commandManager.mRedoStack) ∧
    ((CommandManager.undo s).commandManager.mUndoStack.length +
        (CommandManager.undo s).commandManager.mRedoStack.length =
      s.commandManager.mUndoStack.length + s.commandManager.mRedoStack.length ∧
    (CommandManager.redo s).commandManager.mUndoStack.length +
        (CommandManager.redo s).commandManager.mRedoStack.length =
      s.commandManager.mUndoStack.length + s.commandManager.mRedoStack.length) := by
  have hu := timeline_undo s
  have hr := timeline_redo s
  refine ⟨⟨hu, hr⟩, ?_, ?_⟩
  · have hl := congrArg List.length hu
    simpa [State.timeline] using hl
  · have hl := congrArg List.length hr
    simpa [State.timeline] using hl

/-- C19: for every `Tv` memory, `execute` of a new `TvSwitchChannelCommand(tv, t)`
followed by its `undo` gives back the `Tv` memory it started from, channel and power
flag. `execute` of a `TvOnCommand(tv)` followed by its `undo` always leaves the `Tv`
off, and leaves the `Tv` as it was exactly when it was off before; `execute` of a
`TvOffCommand(tv)` followed by its `undo` always leaves the `Tv` on, and leaves the
`Tv` as it was exactly when it was on before. -/
theorem execute_undo_restores (tvs : TvMem) (tv : TvPtr) (t indet : Int) :
    let w := (TvSwitchChannelCommand.new tv t indet).execute tvs
    let on1 := (TvOnCommand.new tv).execute tvs
    let off1 := (TvOffCommand.new tv).execute tvs
    (w.1.undo w.2).2 = tvs ∧
    (((on1.1.undo on1.2).2 tv).isOn = false ∧
      ((on1.1.undo on1.2).2 tv = tvs tv ↔ (tvs tv).isOn = false)) ∧
    (((off1.1.undo off1.2).2 tv).isOn = true ∧
      ((off1.1.undo off1.2).2 tv = tvs tv ↔ (tvs tv).isOn = true)) := by
  intro w on1 off1
  refine ⟨?_, ⟨?_, ?_⟩, ⟨?_, ?_⟩⟩
  · simp [w, TvSwitchChannelCommand.new, TvSwitchChannelCommand.execute,
      TvSwitchChannelCommand.undo, Tv.getChannel, Tv.switchChannel]
  · simp [on1, TvOnCommand.new, TvOnCommand.execute, TvOnCommand.undo, Tv.isOn,
      Tv.switchOn, Tv.switchOff]
  · cases h : tvs tv with
    | mk b ch =>
      simp [on1, TvOnCommand.new, TvOnCommand.execute, TvOnCommand.undo, Tv.isOn,
        Tv.switchOn, Tv.switchOff, h]
  · simp [off1, TvOffCommand.new, TvOffCommand.execute, TvOffCommand.undo, TvOnCommand.new,
      TvOnCommand.execute, TvOnCommand.undo, Tv.isOn, Tv.switchOn, Tv.switchOff]
  · cases h : tvs tv with
    | mk b ch =>
      simp [off1, TvOffCommand.new, TvOffCommand.execute, TvOffCommand.undo, TvOnCommand.new,
        TvOnCommand.execute, TvOnCommand.undo, Tv.isOn, Tv.switchOn, Tv.switchOff, h]

/-- C20: on a fresh manager and a `Tv` with channel `0`, build one
`TvSwitchChannelCommand(tv, 1)` and pass the same handle to `executeCmd` twice. After
the first call the command has stored the previous channel `0`; the second call
overwrites it with `1`; the undo stack then holds the handle twice, and the two calls
of `undo` that empty it leave the channel at `1`, not at the initial `0`. -/
theorem reexecuted_handle_loses_history (on0 : Bool) (cmds0 : CmdPtr → ICommand)
    (indet : CmdPtr → Int) :
    let s0 := initState ⟨on0, 0⟩ cmds0
    let r := s0.alloc (.tvSwitchChannel (TvSwitchChannelCommand.new 0 1 (indet s0.next)))
    let s1 := CommandManager.executeCmd r.2 r.1
    let s2 := CommandManager.executeCmd s1 r.1
    let s3 := CommandManager.undo (CommandManager.undo s2)
    s1.cmds r.1 = .tvSwitchChannel { mTv := 0, mOldChannel := 0, mNewChannel := 1 } ∧
    s2.cmds r.1 = .tvSwitchChannel { mTv := 0, mOldChannel := 1, mNewChannel := 1 } ∧
    s2.commandManager.mUndoStack = [r.1, r.1] ∧
    s3.commandManager.mUndoStack = [] ∧
    (s3.tvs 0).getChannel = 1 ∧ (s3.tvs 0).getChannel ≠ 0 := by
  intro s0 r s1 s2 s3
  refine ⟨rfl, rfl, rfl, rfl, rfl, ?_⟩
  have h1 : (s3.tvs 0).getChannel = 1 := rfl
  rw [h1]
  decide

/-! ## Facts about sequences of client actions -/

theorem step_executeNew_eq (indet : CmdPtr → Int) (s : State) (e : NewExpr) :
    step indet s (.executeNew e) =
      { tvs := ((e.construct (indet s.next)).execute s.tvs).2
        cmds := Function.update s.cmds s.next ((e.construct (indet s.next)).execute s.tvs).1
        next := s.next + 1
        commandManager :=
          { mUndoStack := s.next :: s.commandManager.mUndoStack, mRedoStack := [] } } := by
  simp [step, State.alloc, executeCmd_eq]

theorem construct_execute_indep (e : NewExpr) (i1 i2 : Int) (tvs : TvMem) :
    (e.construct i1).execute tvs = (e.construct i2).execute tvs := by
  cases e <;> rfl

theorem mem_held_iff_timeline (s : State) (p : CmdPtr) : p ∈ s.held ↔ p ∈ s.timeline := by
  simp [State.held, State.timeline]

theorem mem_held_undo {s : State} {p : CmdPtr} (h : p ∈ (CommandManager.undo s).held) :
    p ∈ s.held := by
  rw [mem_held_iff_timeline, timeline_undo] at h
  exact (mem_held_iff_timeline s p).2 h

theorem mem_held_redo {s : State} {p : CmdPtr} (h : p ∈ (CommandManager.redo s).held) :
    p ∈ s.held := by
  rw [mem_held_iff_timeline, timeline_redo] at h
  exact (mem_held_iff_timeline s p).2 h

theorem held_executed (indet : CmdPtr → Int) :
    ∀ (acts : List Action) (s : State) (l : List CmdPtr), (∀ p ∈ s.held, p ∈ l) →
      ∀ p ∈ (run indet s acts).held, p ∈ l ++ executedHandles indet s acts
  | [], s, l, h, p, hp => by
    simpa [executedHandles] using h p hp
  | .executeNew e :: acts, s, l, h, p, hp => by
    have hstep : ∀ q ∈ (step indet s (.executeNew e)).held, q ∈ l ++ [s.next] := by
      intro q hq
      rw [step_executeNew_eq] at hq
      simp only [State.held, List.append_nil, List.mem_cons] at hq
      rcases hq with rfl | hq
      · simp
      · exact List.mem_append_left _ (h q (by simp [State.held, hq]))
    have ih := held_executed indet acts (step indet s (.executeNew e)) (l ++ [s.next]) hstep p hp
    simpa [executedHandles] using ih
  | .undo :: acts, s, l, h, p, hp =>
    held_executed indet acts (step indet s .undo) l (fun q hq => h q (mem_held_undo hq)) p hp
  | .redo :: acts, s, l, h, p, hp =>
    held_executed indet acts (step indet s .redo) l (fun q hq => h q (mem_held_redo hq)) p hp

theorem agree_step (i1 i2 : CmdPtr → Int) {s1 s2 : State} (h : Agree s1 s2) (a : Action) :
    Agree (step i1 s1 a) (step i2 s2 a) := by
  obtain ⟨tvs, c1, n, m⟩ := s1
  obtain ⟨tvs2, c2, n2, m2⟩ := s2
  obtain ⟨ht, hn, hm, hc⟩ := h
  simp only at ht hn hm
  subst ht hn hm
  cases a with
  | executeNew e =>
    rw [step_executeNew_eq, step_executeNew_eq]
    rw [construct_execute_indep e (i1 n) (i2 n)]
    refine ⟨rfl, rfl, rfl, ?_⟩
    intro p hp
    by_cases hpn : p = n
    · subst hpn
      simp
    · simp only [State.held, List.append_nil, List.mem_cons] at hp
      rcases hp with hp | hp
      · exact absurd hp hpn
      · simp only [Function.update_noteq hpn]
        exact hc p (by simp [State.held, hp])
  | undo =>
    have hcmds1 := undo_cmds ⟨tvs, c1, n, m⟩
    have hcmds2 := undo_cmds ⟨tvs, c2, n, m⟩
    obtain ⟨us, rs⟩ := m
    cases us with
    | nil =>
      simp only [step]
      rw [undo_nil _ rfl, undo_nil _ rfl]
      exact ⟨rfl, rfl, rfl, hc⟩
    | cons p ps =>
      simp only [step] at *
      have hp : c1 p = c2 p := hc p (by simp [State.held])
      refine ⟨?_, ?_, ?_, ?_⟩
      · rw [undo_cons _ p ps rfl, undo_cons _ p ps rfl]
        show ((c1 p).undo tvs).2 = ((c2 p).undo tvs).2
        rw [hp]
      · rw [undo_cons _ p ps rfl, undo_cons _ p ps rfl]
      · rw [undo_cons _ p ps rfl, undo_cons _ p ps rfl]
      · intro q hq
        rw [hcmds1, hcmds2]
        exact hc q (mem_held_undo hq)
  | redo =>
    have hcmds1 := redo_cmds ⟨tvs, c1, n, m⟩
    have hcmds2 := redo_cmds ⟨tvs, c2, n, m⟩
    obtain ⟨us, rs⟩ := m
    cases rs with
    | nil =>
      simp only [step]
      rw [redo_nil _ rfl, redo_nil _ rfl]
      exact ⟨rfl, rfl, rfl, hc⟩
    | cons p ps =>
      simp only [step] at *
      have hp : c1 p = c2 p := hc p (by simp [State.held])
      refine ⟨?_, ?_, ?_, ?_⟩
      · rw [redo_cons _ p ps rfl, redo_cons _ p ps rfl]
        show ((c1 p).redo tvs).2 = ((c2 p).redo tvs).2
        rw [hp]
      · rw [redo_cons _ p ps rfl, redo_cons _ p ps rfl]
      · rw [redo_cons _ p ps rfl, redo_cons _ p ps rfl]
      · intro q hq
        rw [hcmds1, hcmds2]
        exact hc q (mem_held_redo hq)

theorem agree_run (i1 i2 : CmdPtr → Int) :
    ∀ (acts : List Action) {s1 s2 : State}, Agree s1 s2 →
      Agree (run i1 s1 acts) (run i2 s2 acts)
  | [], _, _, h => h
  | a :: acts, _, _, h => agree_run i1 i2 acts (agree_step i1 i2 h a)

theorem hist_step (indet : CmdPtr → Int) {s : State} {tv : TvPtr} {c0 : Int}
    {ut rt : List Int} {a : Action} (ha : a.onChannel tv = true) (h : Hist s tv c0 ut rt) :
    ∃ ut2 rt2, Hist (step indet s a) tv c0 ut2 rt2 := by
  cases a with
  | executeNew e =>
    cases e with
    | tvOn tv2 => simp [Action.onChannel] at ha
    | tvOff tv2 => simp [Action.onChannel] at ha
    | tvSwitchChannel tv2 c =>
      have htv : tv2 = tv := by simpa [Action.onChannel] using ha
      subst htv
      exact ⟨c :: ut, [], hist_switchTo indet c h⟩
  | undo =>
    cases ut with
    | nil =>
      refine ⟨[], rt, ?_⟩
      show Hist (CommandManager.undo s) tv c0 [] rt
      rw [hist_undo_nil h]
      exact h
    | cons t ts => exact ⟨ts, t :: rt, hist_undo_cons h⟩
  | redo =>
    cases rt with
    | nil =>
      refine ⟨ut, [], ?_⟩
      show Hist (CommandManager.redo s) tv c0 ut []
      rw [hist_redo_nil h]
      exact h
    | cons t ts => exact ⟨t :: ut, ts, hist_redo_cons h⟩

theorem hist_run (indet : CmdPtr → Int) {tv : TvPtr} {c0 : Int} :
    ∀ (acts : List Action) {s : State} {ut rt : List Int},
      (∀ a ∈ acts, a.onChannel tv = true) → Hist s tv c0 ut rt →
      ∃ ut2 rt2, Hist (run indet s acts) tv c0 ut2 rt2
  | [], _, ut, rt, _, h => ⟨ut, rt, h⟩
  | a :: acts, _, _, _, hall, h => by
    obtain ⟨ut1, rt1, h1⟩ := hist_step indet (hall a (List.mem_cons_self _ _)) h
    exact hist_run indet acts (fun b hb => hall b (List.mem_cons_of_mem _ hb)) h1

theorem hist_redo_undo {s : State} {tv : TvPtr} {c0 t : Int} {ts rt : List Int}
    (h : Hist s tv c0 (t :: ts) rt) : CommandManager.redo (CommandManager.undo s) = s := by
  obtain ⟨tvs, cmds, next, ⟨us, rs⟩⟩ := s
  obtain ⟨hu, -, hc, -, -⟩ := h
  cases us with
  | nil => exact hu.elim
  | cons p ps =>
    have hp : cmds p =
        .tvSwitchChannel { mTv := tv, mOldChannel := ts.headD c0, mNewChannel := t } := hu.1
    have hch : (tvs tv).mChannel = t := hc
    rw [undo_cons _ p ps rfl, redo_cons _ p rs rfl]
    simp only [hp, ICommand.undo, ICommand.redo, TvSwitchChannelCommand.undo,
      TvSwitchChannelCommand.redo, Function.update_same, Function.update_idem,
      Tv.switchChannel, ← hch, Function.update_eq_self]
    congr 1
    rw [hch, ← hp]
    exact Function.update_eq_self _ _

theorem hist_undo_redo {s : State} {tv : TvPtr} {c0 t : Int} {ut rt : List Int}
    (h : Hist s tv c0 ut (t :: rt)) : CommandManager.undo (CommandManager.redo s) = s := by
  obtain ⟨tvs, cmds, next, ⟨us, rs⟩⟩ := s
  obtain ⟨-, hr, hc, -, -⟩ := h
  cases rs with
  | nil => exact hr.elim
  | cons p ps =>
    have hp : cmds p =
        .tvSwitchChannel { mTv := tv, mOldChannel := ut.headD c0, mNewChannel := t } := hr.1
    have hch : (tvs tv).mChannel = ut.headD c0 := hc
    rw [redo_cons _ p ps rfl, undo_cons _ p us rfl]
    simp only [hp, ICommand.undo, ICommand.redo, TvSwitchChannelCommand.undo,
      TvSwitchChannelCommand.redo, Function.update_same, Function.update_idem,
      Tv.switchChannel, ← hch, Function.update_eq_self]
    congr 1
    rw [hch, ← hp]
    exact Function.update_eq_self _ _

/-! ## Reachable states -/

/-- C15: start from a fresh manager and perform any sequence of actions (`executeCmd` of a
newly constructed command, `undo`, `redo`). Then every handle held by the undo stack
or the redo stack is a handle on which `execute()` has been called, so `undo` of the
manager only calls `undo()` on executed commands. Accordingly nothing the manager can
reach depends on uninitialised storage: for any two contents `indet`, `indet2` of
uninitialised members and `cmds`, `cmds2` of the free store, the two runs end with the
same `Tv` memory, the same stacks and the same command objects behind the held
handles, and a further `undo` leaves the same `Tv` memory in both. -/
theorem stacked_commands_executed (indet indet2 : CmdPtr → Int) (tvs : TvMem)
    (cmds cmds2 : CmdPtr → ICommand) (next : CmdPtr) (acts : List Action) :
    (∀ p ∈ (run indet ⟨tvs, cmds, next, CommandManager.new⟩ acts).held,
      p ∈ executedHandles indet ⟨tvs, cmds, next, CommandManager.new⟩ acts) ∧
    ((run indet ⟨tvs, cmds, next, CommandManager.new⟩ acts).tvs =
        (run indet2 ⟨tvs, cmds2, next, CommandManager.new⟩ acts).tvs ∧
      (run indet ⟨tvs, cmds, next, CommandManager.new⟩ acts).commandManager =
        (run indet2 ⟨tvs, cmds2, next, CommandManager.new⟩ acts).commandManager ∧
      ∀ p ∈ (run indet ⟨tvs, cmds, next, CommandManager.new⟩ acts).held,
        (run indet ⟨tvs, cmds, next, CommandManager.new⟩ acts).cmds p =
          (run indet2 ⟨tvs, cmds2, next, CommandManager.new⟩ acts).cmds p) ∧
    (CommandManager.undo (run indet ⟨tvs, cmds, next, CommandManager.new⟩ acts)).tvs =
      (CommandManager.undo (run indet2 ⟨tvs, cmds2, next, CommandManager.new⟩ acts)).tvs := by
  have h0 : Agree ⟨tvs, cmds, next, CommandManager.new⟩ ⟨tvs, cmds2, next, CommandManager.new⟩ :=
    ⟨rfl, rfl, rfl, by simp [State.held, CommandManager.new]⟩
  have hrun := agree_run indet indet2 acts h0
  refine ⟨?_, ⟨hrun.1, hrun.2.2.1, hrun.2.2.2⟩, (agree_step indet indet2 hrun .undo).1⟩
  intro p hp
  have hmem := held_executed indet acts ⟨tvs, cmds, next, CommandManager.new⟩ []
    (by simp [State.held, CommandManager.new]) p hp
  simpa using hmem

/-- C16: start from a fresh manager and a `Tv` at `tv` with channel `c0`, and perform any
sequence of `undo`, `redo` and `executeCmd` of newly constructed channel switches bound
to `tv`. Then the history invariant `Hist` holds for some lists of targets `ut` (undo
stack, top first) and `rt` (redo stack, top first): the channel is the target on top
of the undo stack, or `c0` when that stack is empty; each undo-stack command has
stored the target of the command below it, the bottom one `c0`; the top redo-stack
command has stored the current channel, each other one the target of the command
above it. -/
theorem history_chain (indet : CmdPtr → Int) (tv : TvPtr) (tvs : TvMem)
    (cmds : CmdPtr → ICommand) (next : CmdPtr) (acts : List Action)
    (hacts : ∀ a ∈ acts, a.onChannel tv = true) :
    ∃ ut rt, Hist (run indet ⟨tvs, cmds, next, CommandManager.new⟩ acts) tv
      (tvs tv).getChannel ut rt :=
  hist_run indet acts hacts (hist_fresh tvs cmds next tv)

theorem history_chain_witness :
    (∀ a ∈ [Action.executeNew (.tvSwitchChannel 0 4), .executeNew (.tvSwitchChannel 0 5),
        .undo], a.onChannel 0 = true) ∧
    ∃ ut rt, Hist (run (fun _ => 0)
        ⟨fun _ => ⟨false, 7⟩, fun _ => .tvOn ⟨0⟩, 0, CommandManager.new⟩
        [Action.executeNew (.tvSwitchChannel 0 4), .executeNew (.tvSwitchChannel 0 5),
          .undo]) 0 7 ut rt :=
  ⟨by decide,
    history_chain (fun _ => 0) 0 (fun _ => ⟨false, 7⟩) (fun _ => .tvOn ⟨0⟩) 0
      [Action.executeNew (.tvSwitchChannel 0 4), .executeNew (.tvSwitchChannel 0 5), .undo]
      (by decide)⟩

/-- C18: in every state reached from a fresh manager by `undo`, `redo` and `executeCmd` of
newly constructed channel switches bound to the `Tv` at `tv`: when the undo stack is
not empty, `undo` followed by `redo` gives back the state (the `Tv` memory, the
command objects and both stacks); when the redo stack is not empty, `redo` followed
by `undo` gives back the state. -/
theorem undo_redo_inverse (indet : CmdPtr → Int) (tv : TvPtr) (tvs : TvMem)
    (cmds : CmdPtr → ICommand) (next : CmdPtr) (acts : List Action)
    (hacts : ∀ a ∈ acts, a.onChannel tv = true) :
    ((run indet ⟨tvs, cmds, next, CommandManager.new⟩ acts).commandManager.mUndoStack ≠ [] →
      CommandManager.redo (CommandManager.undo
          (run indet ⟨tvs, cmds, next, CommandManager.new⟩ acts)) =
        run indet ⟨tvs, cmds, next, CommandManager.new⟩ acts) ∧
    ((run indet ⟨tvs, cmds, next, CommandManager.new⟩ acts).commandManager.mRedoStack ≠ [] →
      CommandManager.undo (CommandManager.redo
          (run indet ⟨tvs, cmds, next, CommandManager.new⟩ acts)) =
        run indet ⟨tvs, cmds, next, CommandManager.new⟩ acts) := by
  obtain ⟨ut, rt, h⟩ := hist_run indet acts hacts (hist_fresh tvs cmds next tv)
  constructor
  · intro hne
    cases ut with
    | nil =>
      exact absurd (List.length_eq_zero.1 (undoChain_length h.undoChain)) hne
    | cons t ts => exact hist_redo_undo h
  · intro hne
    cases rt with
    | nil =>
      exact absurd (List.length_eq_zero.1 (redoChain_length h.redoChain)) hne
    | cons t ts => exact hist_undo_redo h

theorem undo_redo_inverse_witness :
    ((∀ a ∈ [Action.executeNew (.tvSwitchChannel 0 4), .executeNew (.tvSwitchChannel 0 5),
        .undo], a.onChannel 0 = true) ∧
      (run (fun _ => 0) ⟨fun _ => ⟨false, 7⟩, fun _ => .tvOn ⟨0⟩, 0, CommandManager.new⟩
        [Action.executeNew (.tvSwitchChannel 0 4), .executeNew (.tvSwitchChannel 0 5),
          .undo]).commandManager.mUndoStack ≠ []) ∧
    CommandManager.redo (CommandManager.undo
        (run (fun _ => 0) ⟨fun _ => ⟨false, 7⟩, fun _ => .tvOn ⟨0⟩, 0, CommandManager.new⟩
          [Action.executeNew (.tvSwitchChannel 0 4), .executeNew (.tvSwitchChannel 0 5),
            .undo])) =
      run (fun _ => 0) ⟨fun _ => ⟨false, 7⟩, fun _ => .tvOn ⟨0⟩, 0, CommandManager.new⟩
        [Action.executeNew (.tvSwitchChannel 0 4), .executeNew (.tvSwitchChannel 0 5), .undo] :=
  ⟨⟨by decide, by decide⟩,
    (undo_redo_inverse (fun _ => 0) 0 (fun _ => ⟨false, 7⟩) (fun _ => .tvOn ⟨0⟩) 0
      [Action.executeNew (.tvSwitchChannel 0 4), .executeNew (.tvSwitchChannel 0 5), .undo]
      (by decide)).1 (by decide)⟩

end TvStack
